import Mathlib

/-!
Verification development for the per-book session actor of the autobiography
application (backend/src/durable_objects/InterviewSession.ts, final revision of
the file). The Durable Object is embedded shallowly: its mutable fields become
a SessionState record, each websocket handler becomes a pure function from the
state (plus the oracle data the code obtains from the LLM gateway) to a new
state together with the ordered list of externally visible effects it performs
(storage writes, D1 writes, sends to the triggering socket, broadcasts to all
attached sockets). The streaming writer is modelled by the list of text
fragments the SSE stream delivers.
-/

namespace InterviewSession

/-- Phase of the session, field mode of the class. -/
inductive Mode where
  | interview
  | writing
  deriving DecidableEq, Repr

/-- Role tag of a transcript turn. -/
inductive Role where
  | user
  | assistant
  | system
  | tool
  deriving DecidableEq, Repr

/-- A note card: interface NoteItem of the source. -/
structure NoteItem where
  id : String
  content : String
  deriving DecidableEq, Repr

/-- A transcript turn: interface ThreadMessage. Turns recording a tool result
carry no content (the content field is undefined in the source); funcName
stands for the opaque functionResponse payload name. -/
structure ThreadMessage where
  role : Role
  content : Option String
  funcName : Option String
  deriving DecidableEq, Repr

/-- One outline chapter as stored in bookContext.chapters. -/
structure Chapter where
  index : Nat
  title : String
  summary : String
  deriving DecidableEq, Repr

/-- A chapter as returned by the append_chapters tool, before an index is
assigned. -/
structure RawChapter where
  title : String
  summary : String
  deriving DecidableEq, Repr

/-- The mutable fields of the Durable Object that the claims touch. abortLive
records whether the field abortController currently holds a controller (the
source initialises it to null and never assigns a controller to it). chapters
is bookContext.chapters. -/
structure SessionState where
  history : List ThreadMessage
  notes : List NoteItem
  mode : Mode
  currentDraft : String
  fullManuscript : String
  currentChapterIndex : Nat
  isProcessing : Bool
  abortLive : Bool
  chapters : List Chapter
  deriving DecidableEq, Repr

/-- Outbound websocket message payloads, mirroring the JSON message types the
actor sends. -/
inductive OutMsg where
  | outline (chapters : List Chapter)
  | notesSync (notes : List NoteItem)
  | modeSync (m : Mode)
  | chapterIndexSync (i : Nat)
  | response (content : String)
  | historyMsg (h : List (Role × String))
  | draftChunk (content : String) (reset : Bool)
  | draftComplete
  | errorMsg (content : String)
  | debugLog (content : String)
  deriving DecidableEq, Repr

/-- An externally visible effect of a handler, in the order the code performs
them: a send to the socket that triggered the handler, a broadcast to every
attached socket (this.broadcast), a durable-storage write keyed by the field
name, or a D1 database write. -/
inductive Effect where
  | toSender (m : OutMsg)
  | toAll (m : OutMsg)
  | storagePut (key : String)
  | dbInsertChapter (index : Nat) (title : String) (content : String)
  | dbUpdateOutline (chapters : List Chapter)
  deriving DecidableEq, Repr

/-- Debug line the deduplication guard broadcasts when it refuses an append. -/
def dupLogMsg : String := "Prevented duplicate message insertion."

/-- Method addMessageSafe: compare the would-be turn against the last stored
turn; on an exact role-and-content match refuse to append (returning false and
only emitting a debug broadcast), otherwise append the turn and persist the
history. Returns the new history, the added flag, and the effects. -/
def addMessageSafe (history : List ThreadMessage) (role : Role) (content : String) :
    List ThreadMessage × Bool × List Effect :=
  match history.getLast? with
  | some lastMsg =>
    if lastMsg.role = role ∧ lastMsg.content = some content then
      (history, false, [Effect.toAll (OutMsg.debugLog dupLogMsg)])
    else
      (history ++ [⟨role, some content, none⟩], true, [Effect.storagePut "history"])
  | none => (history ++ [⟨role, some content, none⟩], true, [Effect.storagePut "history"])

/-- The plain-text branch of the interviewer loop: add the assistant turn via
addMessageSafe and broadcast it as a response message only when it was actually
added. -/
def emitAssistantText (s : SessionState) (text : String) : SessionState × List Effect :=
  let added := addMessageSafe s.history Role.assistant text
  if added.2.1 then
    ({ s with history := added.1 }, added.2.2 ++ [Effect.toAll (OutMsg.response text)])
  else
    ({ s with history := added.1 }, added.2.2)

/-- The patch_note map: replace the content of every note whose id matches,
keep every other note as it is (source: this.notes.map with a ternary). -/
def patchNote (notes : List NoteItem) (id : String) (content : String) : List NoteItem :=
  notes.map fun n => if n.id = id then { n with content := content } else n

/-- Handler of the patch_note client message: update the notes list and persist
it. The source sends nothing to anybody on this path. -/
def handlePatchNote (s : SessionState) (id : String) (content : String) :
    SessionState × List Effect :=
  ({ s with notes := patchNote s.notes id content }, [Effect.storagePut "notes"])

/-- Handler of the update_notes client message, final revision: when the client
list is non-empty the server notes are replaced by it wholesale and the result
is echoed to the sending socket only; an empty client list is ignored. -/
def handleUpdateNotes (s : SessionState) (clientNotes : List NoteItem) :
    SessionState × List Effect :=
  if 0 < clientNotes.length then
    ({ s with notes := clientNotes },
      [Effect.storagePut "notes", Effect.toSender (OutMsg.notesSync clientNotes)])
  else (s, [])

/-- Configuration of an in-flight writer stream: the fragments the SSE stream
has still to deliver, and whether the underlying fetch has been aborted. -/
structure StreamCfg where
  remaining : List String
  aborted : Bool
  deriving DecidableEq, Repr

/-- Handler of the cancel_generation client message: abort the stream only if
the abortController field holds a controller, then set the mode back to
interview, persist it and broadcast it. The isProcessing flag is not touched. -/
def handleCancelGeneration (s : SessionState) (stream : Option StreamCfg) :
    SessionState × Option StreamCfg × List Effect :=
  let afterAbort :=
    if s.abortLive then
      ({ s with abortLive := false }, stream.map fun c => { c with aborted := true })
    else (s, stream)
  ({ afterAbort.1 with mode := Mode.interview }, afterAbort.2,
    [Effect.storagePut "mode", Effect.toAll (OutMsg.modeSync Mode.interview)])

/-- One delivery step of the writer stream (body of the read loop in
streamGemini): append the fragment to the in-memory draft and broadcast it as
an incremental draft_chunk. An aborted stream delivers nothing. -/
def streamChunkStep (s : SessionState) (cfg : StreamCfg) :
    SessionState × StreamCfg × List Effect :=
  if cfg.aborted then (s, cfg, [])
  else
    match cfg.remaining with
    | [] => (s, cfg, [])
    | c :: rest =>
      ({ s with currentDraft := s.currentDraft ++ c }, ⟨rest, cfg.aborted⟩,
        [Effect.toAll (OutMsg.draftChunk c false)])

/-- The whole read loop of streamGemini, run to completion on the list of
fragments the stream delivers. -/
def runStream : SessionState → List String → SessionState × List Effect
  | s, [] => (s, [])
  | s, c :: rest =>
    let out := runStream { s with currentDraft := s.currentDraft ++ c } rest
    (out.1, Effect.toAll (OutMsg.draftChunk c false) :: out.2)

/-- Method runWriterAgent, final revision: log, clear the draft, broadcast a
replace-all chunk holding the manuscript so far, consume the stream, persist
the finished draft once, and broadcast draft_complete. -/
def runWriterAgentModel (s : SessionState) (chunks : List String) :
    SessionState × List Effect :=
  let s1 := { s with currentDraft := "" }
  let resetChunk :=
    Effect.toAll (OutMsg.draftChunk
      (s.fullManuscript ++ (if s.fullManuscript = "" then "" else "\n\n")) true)
  let out := runStream s1 chunks
  (out.1,
    Effect.toAll (OutMsg.debugLog "Writing chapter...") :: resetChunk :: out.2 ++
      [Effect.storagePut "currentDraft", Effect.toAll OutMsg.draftComplete])

/-- A tool call returned by the completion backend to the interviewer loop. -/
inductive ToolCall where
  | createNote (content : String)
  | finalizeInterview
  | unknown (name : String)
  deriving DecidableEq, Repr

/-- A parsed completion response: the tool calls (possibly none) and the plain
text (possibly absent). -/
structure AgentResponse where
  functionCalls : List ToolCall
  text : Option String
  deriving DecidableEq, Repr

/-- Outcome of one callGemini invocation: a response, or a thrown error
(timeout, non-success status). -/
inductive AgentResult where
  | ok (r : AgentResponse)
  | err
  deriving DecidableEq, Repr

/-- Fresh note id for the n-th crypto.randomUUID call of a turn. -/
def mkNoteId (seed : Nat) : String := "note-" ++ toString seed

/-- The response.text fallback of the text branch: the source uses text or
three dots, and an empty string is falsy in the source language. -/
def effectiveText : Option String → String
  | some t => if t = "" then "..." else t
  | none => "..."

/-- The for loop over the tool calls of one completion response. A create_note
call appends a fresh note, persists the notes and records a tool turn; a
finalize_interview call flips the mode to writing, persists and broadcasts it,
and abandons the remaining calls (the source returns from the whole method);
an unrecognised call name does nothing. Returns state, effects, next fresh
seed, and whether finalize_interview was hit. -/
def processCallList : Nat → SessionState → List ToolCall → SessionState × List Effect × Nat × Bool
  | seed, s, [] => (s, [], seed, false)
  | seed, s, call :: rest =>
    match call with
    | ToolCall.createNote content =>
      let newNote : NoteItem := ⟨mkNoteId seed, if content = "" then "New Note" else content⟩
      let s1 := { s with
        notes := s.notes ++ [newNote],
        history := s.history ++ [⟨Role.tool, none, some "create_note"⟩] }
      let out := processCallList (seed + 1) s1 rest
      (out.1, Effect.storagePut "notes" :: out.2.1, out.2.2.1, out.2.2.2)
    | ToolCall.finalizeInterview =>
      ({ s with mode := Mode.writing },
        [Effect.storagePut "mode", Effect.toAll (OutMsg.modeSync Mode.writing)], seed, true)
    | ToolCall.unknown _ => processCallList seed s rest

/-- One iteration of the interviewer while loop, given the outcome of its
callGemini call. With tool calls present and finalize among them the writer
agent runs and the loop ends; with tool calls but no finalize the history is
persisted, the new notes are broadcast to all sockets and the loop continues;
with no tool calls the text branch emits one assistant turn and the loop ends;
a thrown completion error ends the loop with no effect. The final Bool is the
keepGoing flag. -/
def interviewStep (seed : Nat) (s : SessionState) (r : AgentResult) (writerChunks : List String) :
    SessionState × List Effect × Nat × Bool :=
  match r with
  | AgentResult.err => (s, [], seed, false)
  | AgentResult.ok resp =>
    if resp.functionCalls = [] then
      let out := emitAssistantText s (effectiveText resp.text)
      (out.1, out.2, seed, false)
    else
      let out := processCallList seed s resp.functionCalls
      if out.2.2.2 then
        let w := runWriterAgentModel out.1 writerChunks
        (w.1, out.2.1 ++ w.2, out.2.2.1, false)
      else
        (out.1,
          out.2.1 ++ [Effect.storagePut "history", Effect.toAll (OutMsg.notesSync out.1.notes)],
          out.2.2.1, true)

/-- The while loop of runInterviewerAgent with its remaining iteration budget
(the source caps turns at 5). Each iteration consumes one completion result
from the oracle; the third component counts the completion calls made. -/
def interviewLoop : Nat → Nat → SessionState → List AgentResult → List String →
    SessionState × List Effect × Nat
  | 0, _, s, _, _ => (s, [], 0)
  | fuel + 1, seed, s, oracle, chunks =>
    let out := interviewStep seed s (oracle.headD AgentResult.err) chunks
    if out.2.2.2 then
      let rest := interviewLoop fuel out.2.2.1 out.1 oracle.tail chunks
      (rest.1, out.2.1 ++ rest.2.1, rest.2.2 + 1)
    else
      (out.1, out.2.1, 1)

/-- Method runInterviewerAgent, final revision: the bounded loop entered with
turns equal to zero, hence at most 5 iterations. -/
def runInterviewerAgent (s : SessionState) (oracle : List AgentResult)
    (writerChunks : List String) (seed : Nat) : SessionState × List Effect × Nat :=
  interviewLoop 5 seed s oracle writerChunks

/-- Handler of the message client message, final revision: drop it outright
while isProcessing or in writing mode; otherwise append the user turn through
the deduplication guard and, only if it was actually added, run the
interviewer agent with isProcessing held true for the duration (processTurn
resets it in a finally block). -/
def handleMessage (s : SessionState) (content : String) (oracle : List AgentResult)
    (writerChunks : List String) (seed : Nat) : SessionState × List Effect :=
  if s.isProcessing = true ∨ s.mode = Mode.writing then (s, [])
  else
    let added := addMessageSafe s.history Role.user content
    if added.2.1 then
      let s1 := { s with history := added.1, isProcessing := true }
      let run := runInterviewerAgent s1 oracle writerChunks seed
      ({ run.1 with isProcessing := false }, added.2.2 ++ run.2.1)
    else
      ({ s with history := added.1 }, added.2.2)

/-- Greeting synthesised after advancing to the next chapter. -/
def nextChapterGreeting (i : Nat) (c : Chapter) : String :=
  "Hello! We are working on **Chapter " ++ toString i ++ ": " ++ c.title ++ "**. " ++
    c.summary ++ "\n\nReady to move on?"

/-- Title recorded in the chapter archive row: the outline title of the current
chapter, with the fallback used when it is missing or empty (falsy). -/
def archivedTitle (s : SessionState) : String :=
  match s.chapters.find? (fun c => c.index = s.currentChapterIndex) with
  | some c => if c.title = "" then "Chapter " ++ toString s.currentChapterIndex else c.title
  | none => "Chapter " ++ toString s.currentChapterIndex

/-- Method resetForNextChapter (handler of next_chapter): archive the draft to
D1, append it to the manuscript with a blank-line separator when the
manuscript is non-empty, clear the ephemeral state, advance the pointer,
persist everything, broadcast the new chapter index, and synthesise the next
greeting when the outline has a chapter at the new index (its broadcast is
unconditional in the source). -/
def resetForNextChapter (s : SessionState) : SessionState × List Effect :=
  let newManuscript :=
    s.fullManuscript ++ ((if s.fullManuscript = "" then "" else "\n\n") ++ s.currentDraft)
  let newIndex := s.currentChapterIndex + 1
  let s1 := { s with
    fullManuscript := newManuscript, currentDraft := "", currentChapterIndex := newIndex,
    history := [], notes := [], mode := Mode.interview }
  let baseEffects : List Effect :=
    [Effect.dbInsertChapter s.currentChapterIndex (archivedTitle s) s.currentDraft,
     Effect.storagePut "history", Effect.storagePut "notes", Effect.storagePut "mode",
     Effect.storagePut "currentDraft", Effect.storagePut "fullManuscript",
     Effect.storagePut "currentChapterIndex", Effect.toAll (OutMsg.chapterIndexSync newIndex)]
  match s.chapters.find? (fun c => c.index = newIndex) with
  | some ch =>
    let opening := nextChapterGreeting newIndex ch
    let added := addMessageSafe s1.history Role.assistant opening
    ({ s1 with history := added.1 },
      baseEffects ++ added.2.2 ++ [Effect.toAll (OutMsg.response opening)])
  | none => (s1, baseEffects)

/-- One chapter archival with the draft the writer produced for it. -/
def archiveStep (st : SessionState) (draft : String) : SessionState :=
  (resetForNextChapter { st with currentDraft := draft }).1

/-- N successive chapter archivals with the given drafts. -/
def archiveRun (s : SessionState) (drafts : List String) : SessionState :=
  drafts.foldl archiveStep s

/-- The manuscript update of one archival, as a fold step: append the draft,
preceded by a blank-line separator when the manuscript is non-empty. -/
def joinStep (m : String) (d : String) : String :=
  m ++ ((if m = "" then "" else "\n\n") ++ d)

/-- Reference join used to state the corrected manuscript claim: the segments
separated by blank lines. -/
def sepConcat : List String → String
  | [] => ""
  | [d] => d
  | d :: e :: rest => d ++ "\n\n" ++ sepConcat (e :: rest)

/-- Index assignment of runOutlineExpander: the chapters returned by the tool
receive consecutive indices starting at the given one (currentIndex++ in the
source). -/
def formatChapters : Nat → List RawChapter → List Chapter
  | _, [] => []
  | i, c :: rest => ⟨i, c.title, c.summary⟩ :: formatChapters (i + 1) rest

/-- Greeting synthesised after an outline expansion (the source interpolates
the unchanged currentChapterIndex, not the index of the new chapter). -/
def expansionGreeting (i : Nat) (c : Chapter) : String :=
  "Hello! We are working on **Chapter " ++ toString i ++ ": " ++ c.title ++ "**. " ++
    c.summary ++ "\n\nReady to get started?"

/-- Tail of every successful expansion: the source then calls sendHistory with
a null socket, which throws, so the catch block logs and broadcasts an error
(the exact thrown text is runtime specific; a fixed stand-in is used). -/
def expandCrashTail : List Effect :=
  [Effect.toAll (OutMsg.debugLog "Expansion Error: null websocket send"),
   Effect.toAll (OutMsg.errorMsg "Expansion Failed: null websocket send")]

/-- Method runOutlineExpander, given the append_chapters argument the model
returned (none when it returned no valid tool call). On success the new
chapters are appended with indices continuing from the current length, the
outline is persisted to storage and D1, the ephemeral state is cleared and
rebroadcast, and a greeting for the first new chapter is appended. -/
def handleExpandOutline (s : SessionState) (resp : Option (List RawChapter)) :
    SessionState × List Effect :=
  let logStart := Effect.toAll (OutMsg.debugLog "Expanding outline...")
  match resp with
  | none =>
    (s, [logStart, Effect.toAll (OutMsg.debugLog "AI generated no chapters."),
         Effect.toAll (OutMsg.errorMsg "AI did not generate any new chapters.")])
  | some raw =>
    let nextIndex := s.chapters.length + 1
    let formatted := formatChapters nextIndex raw
    let newChapters := s.chapters ++ formatted
    let s1 := { s with chapters := newChapters, history := [], mode := Mode.interview, notes := [] }
    let effsA : List Effect :=
      [logStart, Effect.storagePut "bookContext", Effect.dbUpdateOutline newChapters,
       Effect.toAll (OutMsg.debugLog ("Added " ++ toString formatted.length ++ " new chapters.")),
       Effect.storagePut "history", Effect.storagePut "mode", Effect.storagePut "notes",
       Effect.toAll (OutMsg.outline newChapters), Effect.toAll (OutMsg.modeSync Mode.interview),
       Effect.toAll (OutMsg.notesSync [])]
    match formatted with
    | [] => (s1, effsA ++ expandCrashTail)
    | ch :: _ =>
      let opening := expansionGreeting s.currentChapterIndex ch
      let added := addMessageSafe s1.history Role.assistant opening
      ({ s1 with history := added.1 }, effsA ++ added.2.2 ++ expandCrashTail)

/-- The state the fields of a fresh Durable Object initialise to. -/
def initialState : SessionState :=
  { history := [], notes := [], mode := Mode.interview, currentDraft := "", fullManuscript := "",
    currentChapterIndex := 1, isProcessing := false, abortLive := false, chapters := [] }

/-- A state with an agent loop in flight. -/
def busyState : SessionState := { initialState with isProcessing := true }

/-- A state in the writing phase. -/
def writingState : SessionState := { initialState with mode := Mode.writing }

/-- A writing state reached through a message turn, so isProcessing is true. -/
def cancelState : SessionState := { writingState with isProcessing := true }

/-- A server holding two notes, used as concrete input. -/
def twoNoteState : SessionState :=
  { initialState with notes := [⟨"a", "x"⟩, ⟨"b", "y"⟩] }

/-! Theorems. Helper lemmas come first, then one theorem per claim (with its
witness or counterexample where required). -/

/-- Unfolding of the non-empty branch of the update_notes handler. -/
theorem handleUpdateNotes_nonempty (s : SessionState) (clientNotes : List NoteItem)
    (h : clientNotes ≠ []) :
    handleUpdateNotes s clientNotes =
      ({ s with notes := clientNotes },
        [Effect.storagePut "notes", Effect.toSender (OutMsg.notesSync clientNotes)]) := by
  unfold handleUpdateNotes
  rw [if_pos (List.length_pos.mpr h)]

/-- The call counter of the interviewer loop is bounded by its fuel. -/
theorem interviewLoop_calls_le (fuel : Nat) :
    ∀ (seed : Nat) (s : SessionState) (oracle : List AgentResult) (chunks : List String),
      (interviewLoop fuel seed s oracle chunks).2.2 ≤ fuel := by
  induction fuel with
  | zero => intro seed s oracle chunks; simp [interviewLoop]
  | succ n ih =>
    intro seed s oracle chunks
    simp only [interviewLoop]
    split
    · exact Nat.succ_le_succ (ih _ _ _ _)
    · exact Nat.succ_le_succ (Nat.zero_le n)

/-- The indices assigned by the outline expander are consecutive from the
starting index. -/
theorem formatChapters_map_index (raw : List RawChapter) :
    ∀ i : Nat, (formatChapters i raw).map Chapter.index = List.range' i raw.length := by
  induction raw with
  | nil => intro i; simp [formatChapters]
  | cons c rest ih => intro i; simp [formatChapters, List.range'_succ, ih]

/-- The chapters after a successful expansion are the old ones followed by the
formatted new ones. -/
theorem handleExpandOutline_chapters (s : SessionState) (raw : List RawChapter) :
    (handleExpandOutline s (some raw)).1.chapters =
      s.chapters ++ formatChapters (s.chapters.length + 1) raw := by
  cases hf : formatChapters (s.chapters.length + 1) raw <;>
    simp [handleExpandOutline, hf]

/-- C6: after any successful outline expansion appending k chapters to an
outline of length old, the new chapters have exactly the indices
old+1 .. old+k, and every existing chapter is unchanged. -/
theorem outline_expansion_appends (s : SessionState) (raw : List RawChapter) :
    ((handleExpandOutline s (some raw)).1.chapters).take s.chapters.length = s.chapters ∧
    (((handleExpandOutline s (some raw)).1.chapters).drop s.chapters.length).map Chapter.index =
      List.range' (s.chapters.length + 1) raw.length := by
  rw [handleExpandOutline_chapters]
  exact ⟨List.take_left s.chapters _, by rw [List.drop_left, formatChapters_map_index]⟩

/-- C3: a message client message received while the phase is writing or while
an agent loop is active is silently dropped: the state is unchanged, nothing
is persisted, and nothing is sent or broadcast. -/
theorem busy_message_dropped (s : SessionState) (content : String)
    (oracle : List AgentResult) (writerChunks : List String) (seed : Nat)
    (h : s.isProcessing = true ∨ s.mode = Mode.writing) :
    handleMessage s content oracle writerChunks seed = (s, []) := by
  unfold handleMessage
  rw [if_pos h]

/-- Witness for C3: both busy variants drop a concrete message. -/
theorem busy_message_dropped_w :
    handleMessage busyState "hello" [] [] 0 = (busyState, []) ∧
    handleMessage writingState "hello" [] [] 0 = (writingState, []) :=
  ⟨busy_message_dropped busyState "hello" [] [] 0 (Or.inl rfl),
    busy_message_dropped writingState "hello" [] [] 0 (Or.inr rfl)⟩

/-- C9: the interviewer tool-calling loop makes at most 5 completion calls per
user turn, whatever the model keeps returning, so it always terminates. -/
theorem interview_loop_capped (s : SessionState) (oracle : List AgentResult)
    (writerChunks : List String) (seed : Nat) :
    (runInterviewerAgent s oracle writerChunks seed).2.2 ≤ 5 :=
  interviewLoop_calls_le 5 seed s oracle writerChunks

/-- A patch with an id no note carries maps every note to itself. -/
theorem patchNote_id_absent (notes : List NoteItem) (i c : String)
    (h : ∀ n ∈ notes, n.id ≠ i) : patchNote notes i c = notes := by
  induction notes with
  | nil => rfl
  | cons n rest ih =>
    have hn : n.id ≠ i := h n (List.mem_cons_self n rest)
    have hr := ih fun m hm => h m (List.mem_cons_of_mem n hm)
    simp only [patchNote, List.map_cons] at hr ⊢
    rw [if_neg hn, hr]

/-- With unique ids, a patch rewrites exactly the matching note in place. -/
theorem patchNote_replaces (l1 l2 : List NoteItem) (n : NoteItem) (i c : String)
    (hnodup : ((l1 ++ n :: l2).map NoteItem.id).Nodup) (hid : n.id = i) :
    patchNote (l1 ++ n :: l2) i c = l1 ++ ⟨i, c⟩ :: l2 := by
  rw [List.map_append, List.map_cons, List.nodup_append] at hnodup
  obtain ⟨h1, h2, hdisj⟩ := hnodup
  have hl1 : ∀ m ∈ l1, m.id ≠ i := by
    intro m hm hc
    exact hdisj (List.mem_map_of_mem NoteItem.id hm) (by rw [hc, ← hid]; exact List.mem_cons_self _ _)
  have hl2 : ∀ m ∈ l2, m.id ≠ i := by
    rw [List.nodup_cons] at h2
    intro m hm hc
    refine h2.1 ?_
    rw [hid, ← hc]
    exact List.mem_map_of_mem NoteItem.id hm
  have e1 := patchNote_id_absent l1 i c hl1
  have e2 := patchNote_id_absent l2 i c hl2
  simp only [patchNote, List.map_append, List.map_cons] at e1 e2 ⊢
  rw [e1, e2, if_pos hid]
  have : ({ n with content := c } : NoteItem) = ⟨i, c⟩ := by
    cases n
    simp only [NoteItem.mk.injEq, and_true]
    exact hid
  rw [this]

/-- C10: a patch_note whose id matches no stored note leaves the list exactly
as it was; when the id matches a note (ids being unique), exactly that note
has its content replaced while every other note, the order and the count stay
unchanged; the handler persists the list and sends nothing. -/
theorem patch_note_frame (notes : List NoteItem) (i c : String) :
    ((∀ n ∈ notes, n.id ≠ i) → patchNote notes i c = notes) ∧
    ((notes.map NoteItem.id).Nodup → ∀ l1 n l2, notes = l1 ++ n :: l2 → n.id = i →
        patchNote notes i c = l1 ++ ⟨i, c⟩ :: l2) ∧
    (∀ s : SessionState, s.notes = notes →
      handlePatchNote s i c =
        ({ s with notes := patchNote notes i c }, [Effect.storagePut "notes"])) := by
  refine ⟨patchNote_id_absent notes i c, ?_, ?_⟩
  · intro hnodup l1 n l2 heq hid
    subst heq
    exact patchNote_replaces l1 l2 n i c hnodup hid
  · intro s hs
    subst hs
    rfl

/-- Witness for C10: a matching patch rewrites exactly the second note, and a
patch with an unknown id is the identity. -/
theorem patch_note_frame_w :
    patchNote [⟨"a", "x"⟩, ⟨"b", "y"⟩] "b" "z" = [⟨"a", "x"⟩, ⟨"b", "z"⟩] ∧
    patchNote [⟨"a", "x"⟩, ⟨"b", "y"⟩] "q" "z" = [⟨"a", "x"⟩, ⟨"b", "y"⟩] := by
  constructor
  · exact (patch_note_frame [⟨"a", "x"⟩, ⟨"b", "y"⟩] "b" "z").2.1 (by decide)
      [⟨"a", "x"⟩] ⟨"b", "y"⟩ [] rfl rfl
  · exact (patch_note_frame [⟨"a", "x"⟩, ⟨"b", "y"⟩] "q" "z").1 (by decide)

/-- The deduplication guard refuses a turn matching the last stored one. -/
theorem addMessageSafe_dup (hist : List ThreadMessage) (r : Role) (c : String)
    (lastMsg : ThreadMessage) (hl : hist.getLast? = some lastMsg)
    (hr : lastMsg.role = r) (hc : lastMsg.content = some c) :
    addMessageSafe hist r c = (hist, false, [Effect.toAll (OutMsg.debugLog dupLogMsg)]) := by
  simp only [addMessageSafe, hl]
  rw [if_pos ⟨hr, hc⟩]

/-- The deduplication guard appends any turn not matching the last one. -/
theorem addMessageSafe_not_dup (hist : List ThreadMessage) (r : Role) (c : String)
    (h : ∀ lastMsg, hist.getLast? = some lastMsg →
        ¬(lastMsg.role = r ∧ lastMsg.content = some c)) :
    addMessageSafe hist r c =
      (hist ++ [⟨r, some c, none⟩], true, [Effect.storagePut "history"]) := by
  cases hl : hist.getLast? with
  | none => simp [addMessageSafe, hl]
  | some lastMsg =>
    simp only [addMessageSafe, hl]
    rw [if_neg (h lastMsg hl)]

/-- C4: appending a transcript turn identical in role and content to the last
stored turn is a no-op: the history is unchanged, nothing is persisted, and at
the call site only the debug line goes out, no duplicate response broadcast;
any other turn grows the history by exactly one entry. -/
theorem duplicate_turn_noop (hist : List ThreadMessage) (r : Role) (c : String)
    (s : SessionState) (t : String) :
    (∀ lastMsg, hist.getLast? = some lastMsg → lastMsg.role = r → lastMsg.content = some c →
        addMessageSafe hist r c = (hist, false, [Effect.toAll (OutMsg.debugLog dupLogMsg)])) ∧
    ((∀ lastMsg, hist.getLast? = some lastMsg →
        ¬(lastMsg.role = r ∧ lastMsg.content = some c)) →
      addMessageSafe hist r c =
        (hist ++ [⟨r, some c, none⟩], true, [Effect.storagePut "history"])) ∧
    (∀ lastMsg, s.history.getLast? = some lastMsg → lastMsg.role = Role.assistant →
        lastMsg.content = some t →
        emitAssistantText s t = (s, [Effect.toAll (OutMsg.debugLog dupLogMsg)])) ∧
    ((∀ lastMsg, s.history.getLast? = some lastMsg →
        ¬(lastMsg.role = Role.assistant ∧ lastMsg.content = some t)) →
      (emitAssistantText s t).1.history = s.history ++ [⟨Role.assistant, some t, none⟩] ∧
      (emitAssistantText s t).2 =
        [Effect.storagePut "history", Effect.toAll (OutMsg.response t)]) := by
  refine ⟨addMessageSafe_dup hist r c, addMessageSafe_not_dup hist r c, ?_, ?_⟩
  · intro lastMsg hl hr hc
    unfold emitAssistantText
    rw [addMessageSafe_dup s.history Role.assistant t lastMsg hl hr hc]
    rfl
  · intro h
    unfold emitAssistantText
    rw [addMessageSafe_not_dup s.history Role.assistant t h]
    exact ⟨rfl, rfl⟩

/-- Witness for C4: a concrete duplicate is refused, a concrete fresh turn is
appended. -/
theorem duplicate_turn_noop_w :
    addMessageSafe [⟨Role.assistant, some "hi", none⟩] Role.assistant "hi" =
      ([⟨Role.assistant, some "hi", none⟩], false,
        [Effect.toAll (OutMsg.debugLog dupLogMsg)]) ∧
    addMessageSafe [⟨Role.assistant, some "hi", none⟩] Role.user "hi" =
      ([⟨Role.assistant, some "hi", none⟩, ⟨Role.user, some "hi", none⟩], true,
        [Effect.storagePut "history"]) := by
  constructor
  · exact (duplicate_turn_noop [⟨Role.assistant, some "hi", none⟩] Role.assistant "hi"
      initialState "t").1 ⟨Role.assistant, some "hi", none⟩ rfl rfl rfl
  · refine (duplicate_turn_noop [⟨Role.assistant, some "hi", none⟩] Role.user "hi"
      initialState "t").2.1 ?_
    intro lastMsg hl
    simp only [List.getLast?_singleton, Option.some.injEq] at hl
    subst hl
    decide

/-- C1 fails on the final revision: a non-empty resync that omits a note known
only to the server deletes that note, so the merged result does not contain
every id of the union and deletion is inferred from omission. -/
theorem update_notes_not_merge_cx :
    (handleUpdateNotes twoNoteState [⟨"a", "z"⟩]).1.notes = [⟨"a", "z"⟩] ∧
    "b" ∈ twoNoteState.notes.map NoteItem.id ∧
    "b" ∉ ((handleUpdateNotes twoNoteState [⟨"a", "z"⟩]).1.notes.map NoteItem.id) := by
  refine ⟨?_, ?_, ?_⟩ <;> decide

/-- C1 amended: a non-empty bulk resync replaces the server notes wholesale by
the client list (the client wins for every id, and ids present only on the
server are dropped), echoing the new list to the sending socket; an empty
resync is ignored, leaving the server notes unchanged. -/
theorem update_notes_overwrite (s : SessionState) (clientNotes : List NoteItem) :
    (clientNotes ≠ [] →
      handleUpdateNotes s clientNotes =
        ({ s with notes := clientNotes },
          [Effect.storagePut "notes", Effect.toSender (OutMsg.notesSync clientNotes)])) ∧
    (clientNotes = [] → handleUpdateNotes s clientNotes = (s, [])) := by
  refine ⟨handleUpdateNotes_nonempty s clientNotes, ?_⟩
  intro h
  subst h
  rfl

/-- Witness for C1: a concrete non-empty resync overwrites, a concrete empty
one is ignored. -/
theorem update_notes_overwrite_w :
    handleUpdateNotes twoNoteState [⟨"a", "z"⟩] =
      ({ twoNoteState with notes := [⟨"a", "z"⟩] },
        [Effect.storagePut "notes", Effect.toSender (OutMsg.notesSync [⟨"a", "z"⟩])]) ∧
    handleUpdateNotes twoNoteState [] = (twoNoteState, []) :=
  ⟨(update_notes_overwrite twoNoteState [⟨"a", "z"⟩]).1 (by decide),
    (update_notes_overwrite twoNoteState []).2 rfl⟩

/-- C2: the claim that cancel_generation aborts the in-flight stream is
contradicted by the code. The abortController field is initialised to null and
never assigned, so the abort branch of the handler is dead: after a cancel the
mode is interview, but isProcessing is untouched and the pending stream is
intact, still appending its next fragment to the draft and broadcasting it. -/
theorem cancel_generation_stream_survives :
    (handleCancelGeneration cancelState (some ⟨["X"], false⟩)).1.mode = Mode.interview ∧
    (handleCancelGeneration cancelState (some ⟨["X"], false⟩)).1.isProcessing = true ∧
    (handleCancelGeneration cancelState (some ⟨["X"], false⟩)).2.1 = some ⟨["X"], false⟩ ∧
    (handleCancelGeneration cancelState (some ⟨["X"], false⟩)).2.2 =
      [Effect.storagePut "mode", Effect.toAll (OutMsg.modeSync Mode.interview)] ∧
    (streamChunkStep (handleCancelGeneration cancelState (some ⟨["X"], false⟩)).1
        ⟨["X"], false⟩).1.currentDraft =
      (handleCancelGeneration cancelState (some ⟨["X"], false⟩)).1.currentDraft ++ "X" ∧
    (streamChunkStep (handleCancelGeneration cancelState (some ⟨["X"], false⟩)).1
        ⟨["X"], false⟩).2.2 = [Effect.toAll (OutMsg.draftChunk "X" false)] := by
  refine ⟨?_, ?_, ?_, ?_, ?_, ?_⟩ <;> decide

/-- C8 fails: a patch_note edit changes the notes but the handler sends
nothing at all, neither to the other viewers nor even to the sender. -/
theorem patch_note_silent_cx :
    (handlePatchNote twoNoteState "a" "edited").1.notes ≠ twoNoteState.notes ∧
    (handlePatchNote twoNoteState "a" "edited").2 = [Effect.storagePut "notes"] := by
  constructor <;> decide

/-- C8 amended: only note changes made by AI tool calls are broadcast to all
viewers; an update_notes resync is echoed only to the sending socket; a
patch_note edit is persisted without any notes_sync at all. -/
theorem notes_broadcast_policy (s : SessionState) (i c : String)
    (clientNotes : List NoteItem) (seed : Nat) (resp : AgentResponse)
    (writerChunks : List String) :
    ((handlePatchNote s i c).2 = [Effect.storagePut "notes"]) ∧
    (clientNotes ≠ [] → (handleUpdateNotes s clientNotes).2 =
        [Effect.storagePut "notes", Effect.toSender (OutMsg.notesSync clientNotes)]) ∧
    (resp.functionCalls ≠ [] →
      (processCallList seed s resp.functionCalls).2.2.2 = false →
      Effect.toAll (OutMsg.notesSync (processCallList seed s resp.functionCalls).1.notes) ∈
        (interviewStep seed s (AgentResult.ok resp) writerChunks).2.1) := by
  refine ⟨rfl, ?_, ?_⟩
  · intro h
    rw [handleUpdateNotes_nonempty s clientNotes h]
  · intro hcalls hfin
    simp only [interviewStep, if_neg hcalls, hfin]
    simp

/-- Witness for C8: the concrete resync echo and the concrete tool-call
broadcast. -/
theorem notes_broadcast_policy_w :
    (handleUpdateNotes twoNoteState [⟨"c", "w"⟩]).2 =
      [Effect.storagePut "notes", Effect.toSender (OutMsg.notesSync [⟨"c", "w"⟩])] ∧
    Effect.toAll
        (OutMsg.notesSync (processCallList 0 initialState [ToolCall.createNote "f"]).1.notes) ∈
      (interviewStep 0 initialState
        (AgentResult.ok ⟨[ToolCall.createNote "f"], none⟩) []).2.1 := by
  constructor
  · exact (notes_broadcast_policy twoNoteState "a" "c" [⟨"c", "w"⟩] 0
      ⟨[ToolCall.createNote "f"], none⟩ []).2.1 (by decide)
  · exact (notes_broadcast_policy initialState "a" "c" [⟨"c", "w"⟩] 0
      ⟨[ToolCall.createNote "f"], none⟩ []).2.2 (by decide) (by decide)

/-- Appending to a non-empty string yields a non-empty string. -/
theorem append_ne_empty_left (a b : String) (h : a ≠ "") : a ++ b ≠ "" := by
  intro hc
  apply h
  have hd : (a ++ b).data = [] := by rw [hc]
  rw [String.data_append] at hd
  exact String.ext (List.append_eq_nil.mp hd).1

/-- The manuscript fold equals the blank-line join of the segments, once the
leading run of empty segments (which never receive a separator) is dropped. -/
theorem foldl_joinStep_sepConcat (ds : List String) :
    ∀ m : String, List.foldl joinStep m ds =
      sepConcat (List.dropWhile (fun x => x == "") (m :: ds)) := by
  induction ds with
  | nil =>
    intro m
    by_cases hm : m = ""
    · subst hm
      simp [sepConcat, List.dropWhile]
    · have hb : (m == "") = false := beq_eq_false_iff_ne.mpr hm
      simp [sepConcat, List.dropWhile, hb]
  | cons d rest ih =>
    intro m
    by_cases hm : m = ""
    · subst hm
      have hj : joinStep "" d = d := by
        simp [joinStep, String.empty_append]
      simp only [List.foldl_cons, hj]
      rw [ih d]
      simp [List.dropWhile]
    · have hne : joinStep m d ≠ "" := append_ne_empty_left m _ hm
      simp only [List.foldl_cons]
      rw [ih (joinStep m d)]
      rw [List.dropWhile_cons_of_neg (by simpa using hne),
        List.dropWhile_cons_of_neg (by simpa using hm)]
      cases rest <;> simp [sepConcat, joinStep, hm, String.append_assoc]

/-- The manuscript update performed by resetForNextChapter, whichever greeting
branch is taken. -/
theorem resetForNextChapter_fullManuscript (s : SessionState) :
    (resetForNextChapter s).1.fullManuscript = joinStep s.fullManuscript s.currentDraft := by
  simp only [resetForNextChapter, joinStep]
  split <;> rfl

/-- The manuscript update performed by one chapter archival. -/
theorem archiveStep_fullManuscript (st : SessionState) (d : String) :
    (archiveStep st d).fullManuscript = joinStep st.fullManuscript d :=
  resetForNextChapter_fullManuscript { st with currentDraft := d }

/-- The manuscript after a run of archivals is the fold of the update step. -/
theorem archiveRun_fullManuscript (drafts : List String) :
    ∀ s : SessionState,
      (archiveRun s drafts).fullManuscript = List.foldl joinStep s.fullManuscript drafts := by
  induction drafts with
  | nil => intro s; rfl
  | cons d rest ih =>
    intro s
    show (archiveRun (archiveStep s d) rest).fullManuscript = _
    rw [ih, archiveStep_fullManuscript]
    rfl

/-- C5 fails literally: two archivals yield the drafts joined by a blank line,
not their plain concatenation. -/
theorem manuscript_concat_cx :
    (archiveRun initialState ["a", "b"]).fullManuscript = "a\n\nb" ∧
    (archiveRun initialState ["a", "b"]).fullManuscript ≠ "a" ++ "b" := by
  constructor <;> decide

/-- C5 amended: after any run of archivals the manuscript equals the archived
drafts joined with a blank-line separator (a separator is only added once the
manuscript is non-empty, so leading empty segments collapse), and an archival
only ever appends to the existing manuscript, never mutating an already
archived segment. -/
theorem manuscript_sep_concat (s : SessionState) (drafts : List String) :
    (archiveRun s drafts).fullManuscript =
      sepConcat (List.dropWhile (fun x => x == "") (s.fullManuscript :: drafts)) ∧
    (∀ ds : List String, ∀ d : String, ∃ t : String,
      (archiveRun s (ds ++ [d])).fullManuscript = (archiveRun s ds).fullManuscript ++ t) := by
  constructor
  · rw [archiveRun_fullManuscript, foldl_joinStep_sepConcat]
  · intro ds d
    refine ⟨(if (archiveRun s ds).fullManuscript = "" then "" else "\n\n") ++ d, ?_⟩
    have harc : archiveRun s (ds ++ [d]) = archiveStep (archiveRun s ds) d := by
      simp [archiveRun, List.foldl_append]
    rw [harc, archiveStep_fullManuscript]
    rfl

/-- Closed form of the stream read loop: the draft accumulates every fragment
in order and each fragment is broadcast as an incremental draft_chunk; no
other effect occurs. -/
theorem runStream_characterized (chunks : List String) :
    ∀ s : SessionState,
      runStream s chunks =
        ({ s with currentDraft := List.foldl (fun a c => a ++ c) s.currentDraft chunks },
          chunks.map (fun c => Effect.toAll (OutMsg.draftChunk c false))) := by
  induction chunks with
  | nil => intro s; rfl
  | cons c rest ih =>
    intro s
    simp only [runStream, ih { s with currentDraft := s.currentDraft ++ c }]
    rfl

/-- C7 fails on the final revision: a fragment delivery appends to the
in-memory draft and broadcasts it, but performs no storage write at all, so
the persisted draft is not updated progressively and a mid-stream restart
loses the streamed text. -/
theorem stream_persist_cx :
    (runStream writingState ["Hello"]).1.currentDraft = "Hello" ∧
    (runStream writingState ["Hello"]).2 = [Effect.toAll (OutMsg.draftChunk "Hello" false)] := by
  constructor <;> decide

/-- C7 amended: every fragment arriving from the stream is appended to the
in-memory draft and immediately broadcast to all viewers in order, and those
broadcasts are the only effects of the read loop; the draft is persisted
exactly once, after the stream has ended, just before draft_complete. -/
theorem stream_progressive_broadcast (s : SessionState) (chunks : List String) :
    (runStream s chunks).1.currentDraft =
      List.foldl (fun a c => a ++ c) s.currentDraft chunks ∧
    (runStream s chunks).2 = chunks.map (fun c => Effect.toAll (OutMsg.draftChunk c false)) ∧
    (runWriterAgentModel s chunks).2 =
      Effect.toAll (OutMsg.debugLog "Writing chapter...") ::
        Effect.toAll (OutMsg.draftChunk
          (s.fullManuscript ++ (if s.fullManuscript = "" then "" else "\n\n")) true) ::
        (chunks.map (fun c => Effect.toAll (OutMsg.draftChunk c false)) ++
          [Effect.storagePut "currentDraft", Effect.toAll OutMsg.draftComplete]) := by
  refine ⟨?_, ?_, ?_⟩
  · rw [runStream_characterized]
  · rw [runStream_characterized]
  · simp only [runWriterAgentModel]
    rw [runStream_characterized]
    rfl

end InterviewSession
